import Mathlib

/-!
Shallow embedding of `satviz/scripts/visualize_path_wise_utilization.py`
(function `generate_utilization_at_time` together with the module-level
constants it uses).  Times are integers (nanoseconds in the input files,
milliseconds after conversion), utilization values are rationals, and the
Python dictionary `time_wise_util` is an association list with
last-write-wins semantics (newest entries in front, first match wins).
-/

/-- `UTIL_INTERVAL = 100` (line 41): width in milliseconds of one utilization
bucket. -/
def UTIL_INTERVAL : ℤ := 100

/-- Python's built-in `round` on an exact rational: round half to even
(banker's rounding), as used at lines 152, 155, 171, 172, 223 and 226. -/
def pyRound (x : ℚ) : ℤ :=
  if x - ⌊x⌋ < 1/2 then ⌊x⌋
  else if x - ⌊x⌋ > 1/2 then ⌊x⌋ + 1
  else if ⌊x⌋ % 2 = 0 then ⌊x⌋ else ⌊x⌋ + 1

/-- `round(t / 1000000)`: nanoseconds to milliseconds (lines 152, 155, 171,
172).  Python's `/` is true division, so the argument of `round` is the exact
quotient. -/
def msOfNs (t : ℤ) : ℤ := pyRound ((t : ℚ) / 1000000)

/-- One raw utilization sample, one line of `IN_UTIL_FILE` after parsing and
nanosecond-to-millisecond conversion (lines 168-173). -/
structure UtilSample where
  src : ℤ
  dst : ℤ
  start_ms : ℤ
  end_ms : ℤ
  utilization : ℚ
deriving DecidableEq, Repr

/-- One bucket produced from a sample by the expansion loop: the dictionary
key `(src, dst, start_ms + interval, start_ms + interval + UTIL_INTERVAL)`
together with the stored utilization value (line 178). -/
structure Bucket where
  src : ℤ
  dst : ℤ
  bstart : ℤ
  bend : ℤ
  value : ℚ
deriving DecidableEq, Repr

/-- The `while interval < end_ms - start_ms` loop of lines 176-179, returning
the successive values of `interval` for which a bucket is written.  `span` is
`end_ms - start_ms`. -/
def expandLoop (span : ℤ) (interval : ℤ) : List ℤ :=
  if interval < span then interval :: expandLoop span (interval + 100) else []
termination_by (span - interval).toNat
decreasing_by simp_wf; omega

/-- Bucket expansion of a single sample (lines 176-179): one bucket per loop
iteration, keyed from `start_ms + interval` to
`start_ms + interval + UTIL_INTERVAL` and carrying the sample's utilization.

Note: at lines 174-175 the source evaluates `SystemError("Util exceeded 1.0")`
when `utilization > 1.0` but never raises it, so expansion proceeds
unconditionally; the check has no effect and is therefore absent here. -/
def expandSample (s : UtilSample) : List Bucket :=
  (expandLoop (s.end_ms - s.start_ms) 0).map
    (fun i => ⟨s.src, s.dst, s.start_ms + i, s.start_ms + i + UTIL_INTERVAL, s.utilization⟩)

/-- The key type of the `time_wise_util` dictionary. -/
abbrev UtilKey := ℤ × ℤ × ℤ × ℤ

/-- The `time_wise_util` dictionary, as an association list whose newest
entries are in front. -/
abbrev UtilIndex := List (UtilKey × ℚ)

/-- Dictionary entries written for one sample. -/
def entriesOf (s : UtilSample) : UtilIndex :=
  (expandSample s).map (fun b => ((b.src, b.dst, b.bstart, b.bend), b.value))

/-- Ingestion loop over all lines of `IN_UTIL_FILE` (lines 166-179): each
sample's buckets are written into the dictionary; a later write to an
existing key overwrites it (newest entries are consed in front, and lookup
takes the first match). -/
def ingest (samples : List UtilSample) : UtilIndex :=
  samples.foldl (fun idx s => entriesOf s ++ idx) []

/-- Dictionary access `time_wise_util[key]` (lines 215-216): `none` models the
`KeyError` that Python raises and that propagates out of
`generate_utilization_at_time`. -/
def lookupUtil (idx : UtilIndex) (k : UtilKey) : Option ℚ :=
  match idx with
  | [] => none
  | (k2, v) :: rest => if k = k2 then some v else lookupUtil rest k

/-- One path-change event: `(int(val[0]), nodes)` from a line of `path_file`
(lines 144-147); the time is in nanoseconds, the node list is kept abstract
as a list of node ids. -/
abbrev PathEvent := ℤ × List ℕ

/-- Timeline construction (lines 143-148): the events are appended in file
order, then one synthetic trailing entry `(0, nodes)` is appended, where
`nodes` still holds the node list of the last-read line.  On an empty file
the variable `nodes` is unbound and the source raises `NameError`, modelled
by `none`. -/
def buildTimeline (events : List PathEvent) : Option (List PathEvent) :=
  match events.getLast? with
  | none => none
  | some e => some (events ++ [(0, e.2)])

/-- `start_next` for position `i` of the timeline (lines 153-157): the
millisecond start of entry `i + 1`, or the sentinel `99999999999` when the
lookup of the next element fails. -/
def nextStart (tl : List PathEvent) (i : ℕ) : ℤ :=
  match tl.drop (i + 1) with
  | [] => 99999999999
  | e :: _ => msOfNs e.1

/-- The selection loop of lines 149-162: scan the timeline in order and
return the first entry whose half-open interval
`[start_ms, start_next)` contains `q`; the initial values
`SEL_PATH_TIME = 0, SEL_PATH = []` are returned when no entry matches. -/
def resolveAux (q : ℤ) : List PathEvent → PathEvent
  | [] => (0, [])
  | e :: rest =>
      if msOfNs e.1 ≤ q ∧ q < nextStart (e :: rest) 0 then e
      else resolveAux q rest

/-- Build the timeline from the raw events and resolve the query time
(lines 143-162). -/
def resolvePath (events : List PathEvent) (q : ℤ) : Option PathEvent :=
  (buildTimeline events).map (resolveAux q)

/-- `link_width = 1 + 5 * utilization` (line 220). -/
def link_width (u : ℚ) : ℚ := 1 + 5 * u

/-- The `utilization >= 0.5` branch of lines 221-223:
`red_weight = 255`, `green_weight = 0 + round(255 * (1 - utilization) / 0.5)`.
Returned as `(red_weight, green_weight)`. -/
def rampHigh (u : ℚ) : ℤ × ℤ :=
  (255, 0 + pyRound (255 * (1 - u) / (1/2)))

/-- The `else` branch of lines 224-226: `green_weight = 255`,
`red_weight = 255 - round(255 * (0.5 - utilization) / 0.5)`.
Returned as `(red_weight, green_weight)`. -/
def rampLow (u : ℚ) : ℤ × ℤ :=
  (255 - pyRound (255 * (1/2 - u) / (1/2)), 255)

/-- The two-branch color ramp of lines 221-226, as `(red_weight, green_weight)`. -/
def red_green (u : ℚ) : ℤ × ℤ :=
  if u ≥ 1/2 then rampHigh u else rampLow u

/-- One channel of `'%02x%02x%02x'`: lower-case hexadecimal, zero-padded to
two digits. -/
def hex2 (n : ℕ) : String :=
  let s := String.mk (Nat.toDigits 16 n)
  if s.length < 2 then "0" ++ s else s

/-- `hex_col = '%02x%02x%02x' % (red_weight, green_weight, 0)` (line 227).
The weights are nonnegative throughout the encoder's `[0,1]` input domain, so
formatting them as unsigned hex is faithful. -/
def hex_col (u : ℚ) : String :=
  hex2 (red_green u).1.toNat ++ hex2 (red_green u).2.toNat ++ hex2 0

/-- Per-hop utilization of lines 215-219: look up the two travel directions
of hop `(a, b)` in the window `[q - UTIL_INTERVAL, q)` — in that order, each
lookup able to fail — then keep the larger value.  `q` is `GEN_TIME`. -/
def hopRenderedUtil (idx : UtilIndex) (a b q : ℤ) : Option ℚ :=
  (lookupUtil idx (a, b, q - UTIL_INTERVAL, q)).bind (fun u1 =>
    (lookupUtil idx (b, a, q - UTIL_INTERVAL, q)).map (fun u2 =>
      if u2 > u1 then u2 else u1))

/-- The positions `p` of the path loop (lines 206-214) that pass the guard
`0 < p < len(SEL_PATH) - 2` of line 211 and are therefore rendered as
utilization-colored, width-scaled links.  `n` is `len(SEL_PATH)`. -/
def renderedPositions (n : ℕ) : List ℕ :=
  (List.range n).filter (fun p => decide (0 < p ∧ (p : ℤ) < (n : ℤ) - 2))


-- Closed form of the expansion loop, the workhorse for the bucket claims.

theorem expandLoop_eq_range (n : ℕ) : ∀ (span i : ℤ), (span - i).toNat ≤ n →
    expandLoop span i
      = (List.range (((span - i).toNat + 99) / 100)).map (fun j : ℕ => i + 100 * (j : ℤ)) := by
  induction n with
  | zero =>
    intro span i h
    rw [expandLoop]
    rw [if_neg (by omega)]
    have h0 : (span - i).toNat = 0 := by omega
    rw [h0]
    norm_num
  | succ n ih =>
    intro span i h
    rw [expandLoop]
    by_cases hlt : i < span
    · rw [if_pos hlt]
      have ht : (span - (i + 100)).toNat ≤ n := by omega
      rw [ih span (i + 100) ht]
      have hk : ((span - i).toNat + 99) / 100 = ((span - (i + 100)).toNat + 99) / 100 + 1 := by
        omega
      rw [hk, List.range_succ_eq_map]
      simp only [List.map_cons, List.map_map]
      congr 1
      · push_cast
        ring
      · apply List.map_congr_left
        intro j _
        simp only [Function.comp_apply]
        push_cast
        ring
    · rw [if_neg hlt]
      have h0 : (span - i).toNat = 0 := by omega
      rw [h0]
      norm_num

theorem expandLoop_closed (span : ℤ) :
    expandLoop span 0 = (List.range ((span.toNat + 99) / 100)).map (fun j : ℕ => 100 * (j : ℤ)) := by
  have h := expandLoop_eq_range (span - 0).toNat span 0 le_rfl
  rw [sub_zero] at h
  rw [h]
  apply List.map_congr_left
  intro j _
  ring

theorem expandSample_closed (s : UtilSample) :
    expandSample s
      = (List.range (((s.end_ms - s.start_ms).toNat + 99) / 100)).map
          (fun j : ℕ => ⟨s.src, s.dst, s.start_ms + 100 * (j : ℤ),
                     s.start_ms + 100 * (j : ℤ) + UTIL_INTERVAL, s.utilization⟩) := by
  unfold expandSample
  rw [expandLoop_closed, List.map_map]
  apply List.map_congr_left
  intro j _
  rfl


-- Evaluation lemmas: `pyRound` on inputs whose fractional part is below one
-- half, and the concrete conversions and channel values the claims need.

theorem pyRound_low (x : ℚ) (f : ℤ) (hle : (f : ℚ) ≤ x) (hlt : x - f < 1/2) :
    pyRound x = f := by
  have hf : ⌊x⌋ = f := by
    rw [Int.floor_eq_iff]
    constructor
    · exact hle
    · linarith
  unfold pyRound
  rw [hf]
  rw [if_pos hlt]

theorem pyRound_intCast (n : ℤ) : pyRound (n : ℚ) = n := by
  apply pyRound_low
  · exact le_refl _
  · norm_num

theorem msOfNs_zero : msOfNs 0 = 0 := by
  unfold msOfNs
  apply pyRound_low <;> norm_num

theorem msOfNs_5000 : msOfNs 5000 = 0 := by
  unfold msOfNs
  apply pyRound_low <;> norm_num

theorem msOfNs_5000000 : msOfNs 5000000 = 5 := by
  unfold msOfNs
  apply pyRound_low <;> norm_num

theorem red_green_zero : red_green 0 = (0, 255) := by
  unfold red_green rampLow
  rw [if_neg (by norm_num)]
  have h : (255 : ℚ) * (1/2 - 0) / (1/2) = ((255 : ℤ) : ℚ) := by norm_num
  rw [h, pyRound_intCast]
  norm_num

theorem red_green_one : red_green 1 = (255, 0) := by
  unfold red_green rampHigh
  rw [if_pos (by norm_num)]
  have h : (255 : ℚ) * (1 - 1) / (1/2) = ((0 : ℤ) : ℚ) := by norm_num
  rw [h, pyRound_intCast]
  norm_num

theorem red_green_half : red_green (1/2) = (255, 255) := by
  unfold red_green rampHigh
  rw [if_pos (by norm_num)]
  have h : (255 : ℚ) * (1 - 1/2) / (1/2) = ((255 : ℤ) : ℚ) := by norm_num
  rw [h, pyRound_intCast]
  norm_num

theorem hex_col_zero : hex_col 0 = "00ff00" := by
  unfold hex_col
  rw [red_green_zero]
  decide

theorem hex_col_one : hex_col 1 = "ff0000" := by
  unfold hex_col
  rw [red_green_one]
  decide

theorem hex_col_half : hex_col (1/2) = "ffff00" := by
  unfold hex_col
  rw [red_green_half]
  decide

-- The bucket count as a ceiling: for a positive span, the number of loop
-- iterations equals the ceiling of span / 100.

theorem ceil_span_div (span : ℤ) (h : 0 < span) :
    (((span.toNat + 99) / 100 : ℕ) : ℤ) = ⌈(span : ℚ) / 100⌉ := by
  have h100 : (0 : ℚ) < 100 := by norm_num
  have hlow : span.toNat ≤ 100 * ((span.toNat + 99) / 100 : ℕ) := by omega
  have hhigh : 100 * ((span.toNat + 99) / 100 : ℕ) < span.toNat + 100 := by omega
  have hsp : ((span.toNat : ℕ) : ℚ) = (span : ℚ) := by
    exact_mod_cast congrArg (Int.cast : ℤ → ℚ) (Int.toNat_of_nonneg h.le)
  have hlowq : (span : ℚ) ≤ 100 * (((span.toNat + 99) / 100 : ℕ) : ℚ) := by
    rw [← hsp]
    exact_mod_cast hlow
  have hhighq : 100 * (((span.toNat + 99) / 100 : ℕ) : ℚ) < (span : ℚ) + 100 := by
    rw [← hsp]
    exact_mod_cast hhigh
  symm
  rw [Int.ceil_eq_iff]
  constructor
  · rw [lt_div_iff₀ h100, Int.cast_natCast]
    linarith
  · rw [div_le_iff₀ h100, Int.cast_natCast]
    linarith

-- First-match characterization of the selection loop.

theorem resolveAux_first_spec (q : ℤ) :
    ∀ (tl : List PathEvent) (i : ℕ) (hi : i < tl.length),
      (msOfNs (tl.get ⟨i, hi⟩).1 ≤ q ∧ q < nextStart tl i) →
      (∀ j (hj : j < tl.length), j < i →
        ¬ (msOfNs (tl.get ⟨j, hj⟩).1 ≤ q ∧ q < nextStart tl j)) →
      resolveAux q tl = tl.get ⟨i, hi⟩ := by
  intro tl
  induction tl with
  | nil =>
    intro i hi
    exact absurd hi (by simp)
  | cons e rest ih =>
    intro i hi hcond hfirst
    cases i with
    | zero =>
      have hcond2 : msOfNs e.1 ≤ q ∧ q < nextStart (e :: rest) 0 := hcond
      simp only [resolveAux]
      rw [if_pos hcond2]
      rfl
    | succ i2 =>
      have hne : ¬ (msOfNs e.1 ≤ q ∧ q < nextStart (e :: rest) 0) :=
        hfirst 0 (by simp) (Nat.succ_pos i2)
      simp only [resolveAux]
      rw [if_neg hne]
      exact ih i2 (Nat.lt_of_succ_lt_succ hi) hcond
        (fun j hj hji => hfirst (j + 1) (Nat.succ_lt_succ hj) (Nat.succ_lt_succ hji))

-- The appended time-0 sentinel guarantees that the scan selects an element
-- of the timeline for any query below the far-future bound.

theorem resolveAux_append_sentinel (q : ℤ) (h0 : 0 ≤ q) (hq : q < 99999999999) :
    ∀ (l : List PathEvent) (p : List ℕ), resolveAux q (l ++ [(0, p)]) ∈ l ++ [(0, p)] := by
  intro l p
  induction l with
  | nil =>
    simp only [List.nil_append, resolveAux]
    rw [if_pos ⟨by rw [msOfNs_zero]; exact h0, by exact hq⟩]
    exact List.mem_singleton.mpr rfl
  | cons e l ih =>
    simp only [List.cons_append, resolveAux, List.append_eq]
    by_cases hc : msOfNs e.1 ≤ q ∧ q < nextStart (e :: (l ++ [(0, p)])) 0
    · rw [if_pos hc]
      exact List.mem_cons_self e (l ++ [(0, p)])
    · rw [if_neg hc]
      exact List.mem_cons_of_mem e ih

-- A key absent from the dictionary makes the lookup fail.

theorem lookupUtil_eq_none (idx : UtilIndex) (k : UtilKey)
    (h : ∀ e ∈ idx, e.1 ≠ k) : lookupUtil idx k = none := by
  induction idx with
  | nil => rfl
  | cons e rest ih =>
    obtain ⟨k2, v⟩ := e
    have hk2 : k2 ≠ k := h (k2, v) (List.mem_cons_self _ _)
    simp only [lookupUtil]
    rw [if_neg (fun hk => hk2 hk.symm)]
    exact ih (fun e he => h e (List.mem_cons_of_mem _ he))

-- Concrete expansions used by several claims.

theorem expandSample_250 :
    expandSample ⟨0, 1, 0, 250, 1/2⟩
      = [⟨0, 1, 0, 100, 1/2⟩, ⟨0, 1, 100, 200, 1/2⟩, ⟨0, 1, 200, 300, 1/2⟩] := by
  rw [expandSample_closed]
  rw [show ((250 - 0 : ℤ).toNat + 99) / 100 = 3 from by decide]
  simp [List.range_succ, UTIL_INTERVAL]

theorem expandSample_full (src dst : ℤ) (u : ℚ) :
    expandSample ⟨src, dst, 0, 100, u⟩ = [⟨src, dst, 0, 100, u⟩] := by
  rw [expandSample_closed]
  rw [show ((100 - 0 : ℤ).toNat + 99) / 100 = 1 from by decide]
  rw [show List.range 1 = [0] from rfl]
  norm_num [UTIL_INTERVAL]

/-- C1 — counterexample: a sample spanning 250 ms (not a multiple of
`UTIL_INTERVAL = 100`) expands to 3 buckets, not 2, and the last bucket's
upper boundary 300 exceeds `end_ms = 250`, contradicting the claim that the
trailing tail is dropped and no boundary exceeds `end_ms`. -/
theorem C1_counterexample :
    (expandSample ⟨0, 1, 0, 250, 1/2⟩).length = 3
  ∧ (⟨0, 1, 200, 300, 1/2⟩ : Bucket) ∈ expandSample ⟨0, 1, 0, 250, 1/2⟩
  ∧ ¬ ((300 : ℤ) ≤ 250) := by
  refine ⟨by rw [expandSample_250]; rfl, by rw [expandSample_250]; simp, by norm_num⟩

/-- C1 (amended): for every sample whose positive span is not an exact
multiple of `UTIL_INTERVAL`, bucket expansion produces only full
`UTIL_INTERVAL`-width buckets (no under-sized tail bucket is ever created),
and the final bucket's upper boundary exceeds `end_ms`; a span of 250 ms with
interval 100 yields exactly 3 buckets. -/
theorem C1_bucket_truncation (s : UtilSample) (h : s.start_ms < s.end_ms)
    (hnd : ¬ (UTIL_INTERVAL ∣ (s.end_ms - s.start_ms))) :
    (∀ b ∈ expandSample s, b.bend - b.bstart = UTIL_INTERVAL)
  ∧ (∃ b ∈ expandSample s, s.end_ms < b.bend)
  ∧ (expandSample ⟨0, 1, 0, 250, 1/2⟩).length = 3 := by
  have hdvd : (s.end_ms - s.start_ms) % 100 ≠ 0 := by
    intro hmod
    exact hnd (Int.dvd_iff_emod_eq_zero.mpr hmod)
  refine ⟨?_, ?_, by rw [expandSample_250]; rfl⟩
  · intro b hb
    rw [expandSample_closed] at hb
    obtain ⟨j, hj, rfl⟩ := List.mem_map.mp hb
    ring
  · rw [expandSample_closed]
    refine ⟨_, List.mem_map.mpr
      ⟨((s.end_ms - s.start_ms).toNat + 99) / 100 - 1,
       List.mem_range.mpr (by omega), rfl⟩, ?_⟩
    show s.end_ms < s.start_ms
      + 100 * ((((s.end_ms - s.start_ms).toNat + 99) / 100 - 1 : ℕ) : ℤ) + UTIL_INTERVAL
    rw [show UTIL_INTERVAL = (100 : ℤ) from rfl]
    omega

/-- C1 witness: the amended statement holds on the concrete 250 ms span. -/
theorem C1_bucket_truncation_witness :
    ((0 : ℤ) < 250 ∧ ¬ (UTIL_INTERVAL ∣ (250 - 0 : ℤ)))
  ∧ (∃ b ∈ expandSample ⟨0, 1, 0, 250, 1/2⟩, (250 : ℤ) < b.bend) := by
  have hnd : ¬ (UTIL_INTERVAL ∣ (250 - 0 : ℤ)) := by
    rw [show UTIL_INTERVAL = (100 : ℤ) from rfl]
    decide
  exact ⟨⟨by norm_num, hnd⟩, (C1_bucket_truncation ⟨0, 1, 0, 250, 1/2⟩ (by norm_num) hnd).2.1⟩

/-- C9: for a sample with `end_ms > start_ms`, expansion produces exactly
`ceil(span / UTIL_INTERVAL)` consecutive buckets of width `UTIL_INTERVAL`
starting at `start_ms`, all carrying the sample's utilization; every instant
of `[start_ms, end_ms)` is covered by some bucket, and when the span is not a
multiple of `UTIL_INTERVAL` the bucket with the largest upper boundary ends
strictly after `end_ms`. -/
theorem C9_bucket_expansion (s : UtilSample) (h : s.start_ms < s.end_ms) :
    ((expandSample s).length : ℤ) = ⌈((s.end_ms - s.start_ms : ℤ) : ℚ) / ((UTIL_INTERVAL : ℤ) : ℚ)⌉
  ∧ expandSample s = (List.range (expandSample s).length).map
      (fun j : ℕ => ⟨s.src, s.dst, s.start_ms + UTIL_INTERVAL * (j : ℤ),
                     s.start_ms + UTIL_INTERVAL * (j : ℤ) + UTIL_INTERVAL, s.utilization⟩)
  ∧ (∀ t : ℤ, s.start_ms ≤ t → t < s.end_ms →
      ∃ b ∈ expandSample s, b.bstart ≤ t ∧ t < b.bend)
  ∧ (¬ (UTIL_INTERVAL ∣ (s.end_ms - s.start_ms)) →
      ∃ b ∈ expandSample s, (∀ b2 ∈ expandSample s, b2.bend ≤ b.bend) ∧ s.end_ms < b.bend) := by
  have hspan : (0 : ℤ) < s.end_ms - s.start_ms := by omega
  have hlen : (expandSample s).length = ((s.end_ms - s.start_ms).toNat + 99) / 100 := by
    rw [expandSample_closed]
    simp
  refine ⟨?_, ?_, ?_, ?_⟩
  · rw [hlen, show ((UTIL_INTERVAL : ℤ) : ℚ) = 100 from by norm_num [UTIL_INTERVAL]]
    exact ceil_span_div (s.end_ms - s.start_ms) hspan
  · rw [hlen, expandSample_closed]
    apply List.map_congr_left
    intro j _
    rw [show UTIL_INTERVAL = (100 : ℤ) from rfl]
  · intro t h1 h2
    rw [expandSample_closed]
    refine ⟨_, List.mem_map.mpr
      ⟨(t - s.start_ms).toNat / 100, List.mem_range.mpr (by omega), rfl⟩, ?_, ?_⟩
    · show s.start_ms + 100 * (((t - s.start_ms).toNat / 100 : ℕ) : ℤ) ≤ t
      omega
    · show t < s.start_ms + 100 * (((t - s.start_ms).toNat / 100 : ℕ) : ℤ) + UTIL_INTERVAL
      rw [show UTIL_INTERVAL = (100 : ℤ) from rfl]
      omega
  · intro hnd
    have hdvd : (s.end_ms - s.start_ms) % 100 ≠ 0 := by
      intro hmod
      exact hnd (Int.dvd_iff_emod_eq_zero.mpr hmod)
    rw [expandSample_closed]
    refine ⟨_, List.mem_map.mpr
      ⟨((s.end_ms - s.start_ms).toNat + 99) / 100 - 1,
       List.mem_range.mpr (by omega), rfl⟩, ?_, ?_⟩
    · intro b2 hb2
      obtain ⟨j2, hj2, rfl⟩ := List.mem_map.mp hb2
      rw [List.mem_range] at hj2
      show s.start_ms + 100 * (j2 : ℤ) + UTIL_INTERVAL
        ≤ s.start_ms + 100 * ((((s.end_ms - s.start_ms).toNat + 99) / 100 - 1 : ℕ) : ℤ) + UTIL_INTERVAL
      omega
    · show s.end_ms < s.start_ms
        + 100 * ((((s.end_ms - s.start_ms).toNat + 99) / 100 - 1 : ℕ) : ℤ) + UTIL_INTERVAL
      rw [show UTIL_INTERVAL = (100 : ℤ) from rfl]
      omega

/-- C9 witness: a 300 ms span starting at 0 yields 3 buckets covering it. -/
theorem C9_bucket_expansion_witness :
    ((0 : ℤ) < 300) ∧ ((expandSample ⟨0, 1, 0, 300, 1/2⟩).length : ℤ) = 3 := by
  have h := C9_bucket_expansion ⟨0, 1, 0, 300, 1/2⟩ (by norm_num)
  refine ⟨by norm_num, ?_⟩
  rw [h.1]
  norm_num [UTIL_INTERVAL]

/-- C2: the source evaluates `SystemError("Util exceeded 1.0")` at lines
174-175 without `raise`, so ingestion of a sample with utilization 3/2 > 1
does not abort: the out-of-range value is silently stored in the index and a
subsequent lookup returns it. -/
theorem C2_overrange_sample_stored :
    lookupUtil (ingest [⟨10, 11, 0, 100, 3/2⟩]) (10, 11, 0, 100) = some (3/2)
  ∧ (1 : ℚ) < 3/2 := by
  constructor
  · have hidx : ingest [⟨10, 11, 0, 100, 3/2⟩] = [((10, 11, 0, 100), 3/2)] := by
      simp [ingest, entriesOf, expandSample_full]
    rw [hidx]
    simp [lookupUtil]
  · norm_num

/-- C5: the encoder maps 0.0 to color `00ff00` and width 1, 1.0 to `ff0000`
and width 6, 0.5 to `ffff00` and width 3.5; the width is the linear function
`1 + 5 * u`, staying within `[1, 6]` on `[0, 1]`; and the two color-ramp
branches agree at `u = 0.5`. -/
theorem C5_encoder (u : ℚ) (h0 : 0 ≤ u) (h1 : u ≤ 1) :
    (hex_col 0 = "00ff00" ∧ link_width 0 = 1)
  ∧ (hex_col 1 = "ff0000" ∧ link_width 1 = 6)
  ∧ (hex_col (1/2) = "ffff00" ∧ link_width (1/2) = 7/2)
  ∧ link_width u = 1 + 5 * u
  ∧ (1 ≤ link_width u ∧ link_width u ≤ 6)
  ∧ rampHigh (1/2) = rampLow (1/2) := by
  have hH : rampHigh (1/2) = (255, 255) := by
    unfold rampHigh
    rw [show (255 : ℚ) * (1 - 1/2) / (1/2) = ((255 : ℤ) : ℚ) from by norm_num, pyRound_intCast]
    norm_num
  have hL : rampLow (1/2) = (255, 255) := by
    unfold rampLow
    rw [show (255 : ℚ) * (1/2 - 1/2) / (1/2) = ((0 : ℤ) : ℚ) from by norm_num, pyRound_intCast]
    norm_num
  refine ⟨⟨hex_col_zero, by norm_num [link_width]⟩,
          ⟨hex_col_one, by norm_num [link_width]⟩,
          ⟨hex_col_half, by norm_num [link_width]⟩,
          rfl, ⟨?_, ?_⟩, by rw [hH, hL]⟩
  · unfold link_width
    linarith
  · unfold link_width
    linarith

/-- C5 witness: the encoder at the concrete midpoint input. -/
theorem C5_encoder_witness :
    ((0 : ℚ) ≤ 1/2 ∧ (1/2 : ℚ) ≤ 1)
  ∧ (1 ≤ link_width (1/2) ∧ link_width (1/2) ≤ 6) := by
  refine ⟨⟨by norm_num, by norm_num⟩, ?_⟩
  exact (C5_encoder (1/2) (by norm_num) (by norm_num)).2.2.2.2.1

/-- C6: exactly the path positions `p` with `1 ≤ p ≤ len(path) - 3` pass the
rendering guard `0 < p < len(path) - 2`, and the last interior position
`len(path) - 2` is excluded from colored rendering. -/
theorem C6_rendered_interior (n p : ℕ) :
    (p ∈ renderedPositions n ↔ 1 ≤ p ∧ p ≤ n - 3)
  ∧ n - 2 ∉ renderedPositions n := by
  constructor
  · simp only [renderedPositions, List.mem_filter, List.mem_range, decide_eq_true_eq]
    omega
  · simp only [renderedPositions, List.mem_filter, List.mem_range, decide_eq_true_eq]
    omega

/-- C6 witness: in a 5-node path, position 2 is rendered and position
`5 - 2 = 3` is not. -/
theorem C6_rendered_interior_witness :
    2 ∈ renderedPositions 5 ∧ 3 ∉ renderedPositions 5 :=
  ⟨(C6_rendered_interior 5 2).1.mpr (by norm_num), (C6_rendered_interior 5 0).2⟩

/-- C7: building the timeline from a non-empty event sequence keeps the
events in the order given and appends exactly one synthetic trailing entry
whose node list duplicates the last-read event's path, timestamped 0. -/
theorem C7_timeline_build (events : List PathEvent) (h : events ≠ []) :
    buildTimeline events = some (events ++ [(0, (events.getLast h).2)]) := by
  unfold buildTimeline
  rw [List.getLast?_eq_getLast events h]

/-- C7 witness: the timeline built from one event at 5 ns. -/
theorem C7_timeline_build_witness :
    buildTimeline [((5 : ℤ), [1, 2])] = some [((5 : ℤ), [1, 2]), (0, [1, 2])] := by
  have h := C7_timeline_build [((5 : ℤ), [1, 2])] (by simp)
  simpa using h

/-- C4: when both directional lookups for hop `(a, b)` over the window
`[q - UTIL_INTERVAL, q)` succeed, the rendered utilization is their maximum,
and it is invariant under swapping which direction is queried first. -/
theorem C4_directional_max (idx : UtilIndex) (a b q : ℤ) (u1 u2 : ℚ)
    (h1 : lookupUtil idx (a, b, q - UTIL_INTERVAL, q) = some u1)
    (h2 : lookupUtil idx (b, a, q - UTIL_INTERVAL, q) = some u2) :
    hopRenderedUtil idx a b q = some (max u1 u2)
  ∧ hopRenderedUtil idx a b q = hopRenderedUtil idx b a q := by
  constructor
  · unfold hopRenderedUtil
    rw [h1, h2]
    simp only [Option.some_bind, Option.map_some']
    rcases le_or_lt u2 u1 with hle | hlt
    · rw [if_neg (not_lt.mpr hle), max_eq_left hle]
    · rw [if_pos hlt, max_eq_right hlt.le]
  · unfold hopRenderedUtil
    rw [h1, h2]
    simp only [Option.some_bind, Option.map_some']
    rcases lt_trichotomy u1 u2 with hlt | heq | hlt
    · rw [if_pos hlt, if_neg (not_lt.mpr hlt.le)]
    · rw [heq]
    · rw [if_neg (not_lt.mpr hlt.le), if_pos hlt]

/-- C4 witness: two directional samples for hop `(10, 11)` at query time
100 ms; the maximum of 4/5 and 3/10 is rendered either way. -/
theorem C4_directional_max_witness :
    hopRenderedUtil (ingest [⟨10, 11, 0, 100, 4/5⟩, ⟨11, 10, 0, 100, 3/10⟩]) 10 11 100
      = some (4/5)
  ∧ hopRenderedUtil (ingest [⟨10, 11, 0, 100, 4/5⟩, ⟨11, 10, 0, 100, 3/10⟩]) 10 11 100
      = hopRenderedUtil (ingest [⟨10, 11, 0, 100, 4/5⟩, ⟨11, 10, 0, 100, 3/10⟩]) 11 10 100 := by
  have hidx : ingest [⟨10, 11, 0, 100, 4/5⟩, ⟨11, 10, 0, 100, 3/10⟩]
      = [((11, 10, 0, 100), 3/10), ((10, 11, 0, 100), 4/5)] := by
    simp [ingest, entriesOf, expandSample_full]
  have h1 : lookupUtil (ingest [⟨10, 11, 0, 100, 4/5⟩, ⟨11, 10, 0, 100, 3/10⟩])
      (10, 11, (100 : ℤ) - UTIL_INTERVAL, 100) = some (4/5) := by
    rw [hidx]
    norm_num [lookupUtil, UTIL_INTERVAL]
  have h2 : lookupUtil (ingest [⟨10, 11, 0, 100, 4/5⟩, ⟨11, 10, 0, 100, 3/10⟩])
      (11, 10, (100 : ℤ) - UTIL_INTERVAL, 100) = some (3/10) := by
    rw [hidx]
    norm_num [lookupUtil, UTIL_INTERVAL]
  have h := C4_directional_max _ 10 11 100 (4/5) (3/10) h1 h2
  refine ⟨?_, h.2⟩
  rw [h.1, max_eq_left (by norm_num)]

/-- C8: a utilization lookup for a window key matching no stored bucket
fails with `none` (the `KeyError`), and the failure propagates through the
per-hop computation instead of producing a default value. -/
theorem C8_lookup_miss (idx : UtilIndex) (a b q : ℤ)
    (h : ∀ e ∈ idx, e.1 ≠ (a, b, q - UTIL_INTERVAL, q)) :
    lookupUtil idx (a, b, q - UTIL_INTERVAL, q) = none
  ∧ hopRenderedUtil idx a b q = none := by
  have hnone := lookupUtil_eq_none idx (a, b, q - UTIL_INTERVAL, q) h
  refine ⟨hnone, ?_⟩
  unfold hopRenderedUtil
  rw [hnone]
  rfl

/-- C8 witness: the empty index misses every key. -/
theorem C8_lookup_miss_witness :
    lookupUtil [] (1, 2, (100 : ℤ) - UTIL_INTERVAL, 100) = none
  ∧ hopRenderedUtil [] 1 2 100 = none :=
  C8_lookup_miss [] 1 2 100 (by simp)

/-- C3 — counterexample: (a) with events at 0 ns and 5000 ns both rounding
to 0 ms, a query at 2 ms selects the appended sentinel and yields the second
event's path, not the first's as the claim's example (which equates 5000 ns
with 5 ms) asserts; (b) `start_next` on lookup failure is the finite
sentinel `99999999999`, not `+infinity`: at query 99999999999 a single-event
timeline matches nothing and the empty default is returned. -/
theorem C3_counterexample :
    (resolvePath [((0 : ℤ), [1, 2, 3]), (5000, [1, 4, 3])] 2).map Prod.snd = some [1, 4, 3]
  ∧ ([1, 4, 3] : List ℕ) ≠ [1, 2, 3]
  ∧ (resolvePath [((0 : ℤ), [9, 9])] 99999999999).map Prod.snd = some [] := by
  refine ⟨?_, by simp, ?_⟩
  · norm_num [resolvePath, buildTimeline, resolveAux, nextStart, msOfNs_zero, msOfNs_5000]
  · norm_num [resolvePath, buildTimeline, resolveAux, nextStart, msOfNs_zero]

/-- C3 (amended): path resolution scans the stored timeline in order and
selects the first entry `i` with `start_ms(i) ≤ q < start_ms(i+1)`, where
`start_ms(i+1)` is the far-future sentinel `99999999999` when the lookup of
the next entry fails; for events at 0 ns and 5000000 ns (0 ms and 5 ms), a
query at 2 ms resolves to the first event's path and a query at 6 ms
resolves to the second event's path. -/
theorem C3_resolution (tl : List PathEvent) (q : ℤ) (i : ℕ) (hi : i < tl.length)
    (hcond : msOfNs (tl.get ⟨i, hi⟩).1 ≤ q ∧ q < nextStart tl i)
    (hfirst : ∀ j (hj : j < tl.length), j < i →
      ¬ (msOfNs (tl.get ⟨j, hj⟩).1 ≤ q ∧ q < nextStart tl j)) :
    resolveAux q tl = tl.get ⟨i, hi⟩
  ∧ (resolvePath [((0 : ℤ), [1, 2, 3]), (5000000, [1, 4, 3])] 2).map Prod.snd = some [1, 2, 3]
  ∧ (resolvePath [((0 : ℤ), [1, 2, 3]), (5000000, [1, 4, 3])] 6).map Prod.snd = some [1, 4, 3] := by
  refine ⟨resolveAux_first_spec q tl i hi hcond hfirst, ?_, ?_⟩
  · norm_num [resolvePath, buildTimeline, resolveAux, nextStart, msOfNs_zero, msOfNs_5000000]
  · norm_num [resolvePath, buildTimeline, resolveAux, nextStart, msOfNs_zero, msOfNs_5000000]

/-- C3 witness: a one-entry timeline at 0 ns is selected at query 0. -/
theorem C3_resolution_witness :
    (msOfNs 0 ≤ 0 ∧ (0 : ℤ) < nextStart [((0 : ℤ), [5])] 0)
  ∧ resolveAux 0 [((0 : ℤ), [5])] = (0, [5]) := by
  have hcond : msOfNs (([((0 : ℤ), [5])].get ⟨0, by norm_num⟩)).1 ≤ 0
      ∧ (0 : ℤ) < nextStart [((0 : ℤ), [5])] 0 := by
    constructor
    · show msOfNs 0 ≤ 0
      rw [msOfNs_zero]
    · norm_num [nextStart]
  refine ⟨hcond, ?_⟩
  have h := (C3_resolution [((0 : ℤ), [5])] 0 0 (by norm_num) hcond
    (fun j hj hji => absurd hji (Nat.not_lt_zero j))).1
  simpa using h

/-- C10 — counterexample: at query time 99999999999 (which is ≥ 0) even the
appended time-0 sentinel fails the interval test, so resolution returns the
empty default path, which is not the node list of any ingested event. -/
theorem C10_counterexample :
    (resolvePath [((0 : ℤ), [7])] 99999999999).map Prod.snd = some []
  ∧ ([] : List ℕ) ≠ [7]
  ∧ (0 : ℤ) ≤ 99999999999 := by
  refine ⟨?_, by simp, by norm_num⟩
  norm_num [resolvePath, buildTimeline, resolveAux, nextStart, msOfNs_zero]

/-- C10 (amended): for every non-empty event sequence with nonnegative
timestamps and every query `0 ≤ q < 99999999999`, resolution returns the
node list of some ingested event (the appended time-0 sentinel catches any
such query if no earlier entry does), so the empty-path default is never
returned. -/
theorem C10_no_default (events : List PathEvent) (q : ℤ)
    (hne : events ≠ []) (_hts : ∀ e ∈ events, 0 ≤ e.1)
    (h0 : 0 ≤ q) (hq : q < 99999999999) :
    ∃ e ∈ events, (resolvePath events q).map Prod.snd = some e.2 := by
  have hlast := List.getLast?_eq_getLast events hne
  have htl : buildTimeline events = some (events ++ [(0, (events.getLast hne).2)]) := by
    unfold buildTimeline
    rw [hlast]
  have hmem := resolveAux_append_sentinel q h0 hq events (events.getLast hne).2
  have hres : (resolvePath events q).map Prod.snd
      = some (resolveAux q (events ++ [(0, (events.getLast hne).2)])).2 := by
    unfold resolvePath
    rw [htl]
    rfl
  rw [List.mem_append] at hmem
  rcases hmem with hmem | hmem
  · exact ⟨_, hmem, hres⟩
  · have heq : resolveAux q (events ++ [(0, (events.getLast hne).2)])
        = (0, (events.getLast hne).2) := List.mem_singleton.mp hmem
    refine ⟨events.getLast hne, List.getLast_mem hne, ?_⟩
    rw [hres, heq]

/-- C10 witness: a single event at 0 ns, query 0. -/
theorem C10_no_default_witness :
    (resolvePath [((0 : ℤ), [7])] 0).map Prod.snd = some [7] := by
  obtain ⟨e, he, hres⟩ :=
    C10_no_default [((0 : ℤ), [7])] 0 (by simp) (by simp) le_rfl (by norm_num)
  rw [List.mem_singleton] at he
  rw [hres, he]
